import Mathlib

/-!
Shallow embedding of the SumTrees split-support summarization program
(src/applications/sumtrees/sumtrees.py) together with the behavior of the
split-distribution aggregation engine that the driver exercises.  Library
operations that the driver calls but whose code is not part of this
repository (the treesplit.SplitDistribution and treesum.TopologyCounter
methods, the taxon namespace, and the Python decimal and float conversion
semantics) are modelled from the specification, as indicated on each
definition.  The repository's own test tables
(src/dendropy/test/test_datamodel_split_bitmasks.py) are transcribed
verbatim where a claim is decided by them.
-/

/-- Rooting state of a tree as resolved by the rooting interpretation
passed to the parser (force-rooted, force-unrooted or default-unrooted):
every tree handed to the aggregation engine is counted as either rooted or
unrooted. -/
inductive Rooting where
  | rooted : Rooting
  | unrooted : Rooting
deriving DecidableEq, Repr

/-- A parsed input tree as the aggregation engine sees it: the list of its
edges, each given by its canonical split bitmask and its edge length, the
resolved rooting state, and the tree weight (1 unless weighted trees are in
use). -/
structure PhyloTree where
  edges : List (Nat × ℚ)
  rooting : Rooting
  weight : ℚ
deriving DecidableEq, Repr

/-- Modelled from the spec: the aggregate state of a
treesplit.SplitDistribution (the class itself is not under src, only its
callers and tests are).  Fields follow spec section 3: per-split occurrence
weight, per-split observed edge lengths, number of trees counted, total tree
weight, and the set of rooting types seen, kept as its indicator function. -/
structure SplitDistribution where
  split_counts : Nat → ℚ
  split_edge_lengths : Nat → List ℚ
  total_trees_counted : Nat
  sum_of_tree_weights : ℚ
  tree_rooting_types_counted : Rooting → Bool

/-- A freshly constructed split distribution: nothing counted yet. -/
def emptySplitDistribution : SplitDistribution where
  split_counts := fun _ => 0
  split_edge_lengths := fun _ => []
  total_trees_counted := 0
  sum_of_tree_weights := 0
  tree_rooting_types_counted := fun _ => false

/-- Modelled from the spec (section 4.3, steps 3 and 4): record one edge
observation: the split's aggregate count grows by the tree weight and the
edge length is appended to the split's sample list. -/
def add_edge_observation (d : SplitDistribution) (s : Nat) (len : ℚ) (w : ℚ) :
    SplitDistribution :=
  { d with
    split_counts := fun s2 => if s2 = s then d.split_counts s2 + w else d.split_counts s2
    split_edge_lengths := fun s2 =>
      if s2 = s then d.split_edge_lengths s2 ++ [len] else d.split_edge_lengths s2 }

/-- Modelled from the spec (section 4.3): SplitDistribution.count_splits_on_tree.
Every edge of the tree contributes its canonical split with the tree's
weight; afterwards the totals grow and the tree's rooting state is recorded
into the set of rooting types counted. -/
def count_splits_on_tree (d : SplitDistribution) (t : PhyloTree) : SplitDistribution :=
  let d1 := t.edges.foldl (fun acc e => add_edge_observation acc e.1 e.2 t.weight) d
  { d1 with
    total_trees_counted := d1.total_trees_counted + 1
    sum_of_tree_weights := d1.sum_of_tree_weights + t.weight
    tree_rooting_types_counted := fun r =>
      d1.tree_rooting_types_counted r || decide (r = t.rooting) }

/-- Counting a list of trees one after another into a distribution. -/
def count_splits_on_trees (d : SplitDistribution) (ts : List PhyloTree) : SplitDistribution :=
  ts.foldl count_splits_on_tree d

/-- Modelled from the spec (section 4.3, merge): SplitDistribution.update used
by the collation loop: per-split counts and the totals are summed, sample
lists are concatenated, the rooting-type sets are unioned. -/
def SplitDistribution.update (d other : SplitDistribution) : SplitDistribution where
  split_counts := fun s => d.split_counts s + other.split_counts s
  split_edge_lengths := fun s => d.split_edge_lengths s ++ other.split_edge_lengths s
  total_trees_counted := d.total_trees_counted + other.total_trees_counted
  sum_of_tree_weights := d.sum_of_tree_weights + other.sum_of_tree_weights
  tree_rooting_types_counted := fun r =>
    d.tree_rooting_types_counted r || other.tree_rooting_types_counted r

/-- Number of distinct rooting states recorded in the distribution; embeds
the Python expression len(split_distribution.tree_rooting_types_counted). -/
def rooting_types_count (d : SplitDistribution) : Nat :=
  (if d.tree_rooting_types_counted .rooted then 1 else 0) +
    (if d.tree_rooting_types_counted .unrooted then 1 else 0)

/-- Modelled from the spec (sections 3 and 4.4): the canonical
order-independent topology key of a tree is the frozen set of its splits.
Filtering of trivial splits against the shared taxon mask does not affect
the aggregation algebra and is left out of the key. -/
def topology_key (t : PhyloTree) : Finset Nat :=
  (t.edges.map Prod.fst).toFinset

/-- Modelled from the spec (section 4.4): TopologyCounter.count increments the
occurrence count of the tree's canonical topology key by the tree weight. -/
def topology_count (m : Finset Nat → ℚ) (t : PhyloTree) : Finset Nat → ℚ :=
  fun key => if key = topology_key t then m key + t.weight else m key

/-- Counting a list of trees into a topology hash map. -/
def topology_count_trees (m : Finset Nat → ℚ) (ts : List PhyloTree) : Finset Nat → ℚ :=
  ts.foldl topology_count m

/-- Modelled from the spec (section 4.4): TopologyCounter.update_topology_hash_map
sums the per-key counts of two topology hash maps. -/
def update_topology_hash_map (m other : Finset Nat → ℚ) : Finset Nat → ℚ :=
  fun key => m key + other key

/-- Total weight a single tree contributes to one split: its weight times the
number of its edges carrying that split. -/
def tree_split_weight (t : PhyloTree) (s : Nat) : ℚ :=
  ((t.edges.countP (fun e => decide (e.1 = s))) : ℚ) * t.weight

/-- One step of the serial counting loop of process_sources_serial
(sumtrees.py lines 296-313), acting on the enumerated stream of trees: a
tree whose global index is at least tree_offset is counted into the split
distribution, then the mixed-rooting check aborts the whole run with exit
code 1 (mixed_tree_rootings_in_source_error, lines 318-324), and otherwise
the topology counter counts the tree as well.  Trees before the offset are
skipped.  An error state is absorbing: sys.exit unwinds the rest of the
run, so no later tree is processed and no summary output is produced. -/
def serial_tree_step (tree_offset : Nat)
    (acc : Except Nat (SplitDistribution × (Finset Nat → ℚ))) (p : Nat × PhyloTree) :
    Except Nat (SplitDistribution × (Finset Nat → ℚ)) :=
  match acc with
  | .error c => .error c
  | .ok st =>
    if tree_offset ≤ p.1 then
      let d2 := count_splits_on_tree st.1 p.2
      if 1 < rooting_types_count d2 then .error 1
      else .ok (d2, topology_count st.2 p.2)
    else .ok st

/-- process_sources_serial (sumtrees.py lines 257-316): all sources are
yielded in sequence through one generator and enumerated with a single
global index tidx; each tree with tidx at least tree_offset is counted.
The result is the final split distribution and topology hash map, or exit
code 1 when the mixed-rooting check fired. -/
def process_sources_serial (sources : List (List PhyloTree)) (tree_offset : Nat) :
    Except Nat (SplitDistribution × (Finset Nat → ℚ)) :=
  (sources.flatten.enum).foldl (serial_tree_step tree_offset)
    (.ok (emptySplitDistribution, fun _ => 0))

/-- The trees of an enumerated stream that clear the burn-in offset. -/
def offset_counted_trees (tree_offset : Nat) (l : List (Nat × PhyloTree)) : List PhyloTree :=
  (l.filter (fun p => tree_offset ≤ p.1)).map Prod.snd

/-- The trees that the serial loop counts: those whose global index in the
concatenation of all sources is at least tree_offset. -/
def serial_counted_trees (sources : List (List PhyloTree)) (tree_offset : Nat) :
    List PhyloTree :=
  offset_counted_trees tree_offset sources.flatten.enum

/-- The trees that the parallel workers count: for every file, those whose
index within that file is at least tree_offset (SplitCountingWorker.run,
sumtrees.py lines 142-158, enumerates each file separately from zero). -/
def worker_counted_trees (sources : List (List PhyloTree)) (tree_offset : Nat) :
    List PhyloTree :=
  (sources.map (fun src => offset_counted_trees tree_offset src.enum)).flatten

/-- Total number of trees across all sources. -/
def total_trees_in_sources (sources : List (List PhyloTree)) : Nat :=
  (sources.map List.length).sum

/-- State of the kill_received flag of a worker after it has consumed a given
number of trees.  The flag is set once by an external termination signal and
never cleared, so it is modelled by its arrival point: none when no signal
ever arrives, some k when the flag reads true at every check from the point
where k trees have been consumed. -/
def killed_at (kill_arrival : Option Nat) (consumed : Nat) : Bool :=
  match kill_arrival with
  | none => false
  | some k => decide (k ≤ consumed)

/-- Body of the per-tree work in SplitCountingWorker.run (sumtrees.py lines
142-158): a tree whose index within the current file is at least tree_offset
is counted into the worker's split distribution, and into its topology
counter when tree probabilities are requested; earlier trees are skipped. -/
def worker_process_tree (tree_offset : Nat) (calc_tree_probs : Bool)
    (st : SplitDistribution × (Finset Nat → ℚ)) (p : Nat × PhyloTree) :
    SplitDistribution × (Finset Nat → ℚ) :=
  if tree_offset ≤ p.1 then
    (count_splits_on_tree st.1 p.2,
      if calc_tree_probs then topology_count st.2 p.2 else st.2)
  else st

/-- Inner loop of SplitCountingWorker.run over one file: after each tree the
kill_received flag is checked and, when set, the loop breaks.  Returns the
number of trees consumed so far together with the worker state. -/
def worker_file_loop (kill_arrival : Option Nat) (tree_offset : Nat)
    (calc_tree_probs : Bool) :
    List (Nat × PhyloTree) → Nat → SplitDistribution × (Finset Nat → ℚ) →
      Nat × (SplitDistribution × (Finset Nat → ℚ))
  | [], consumed, st => (consumed, st)
  | p :: rest, consumed, st =>
    let st2 := worker_process_tree tree_offset calc_tree_probs st p
    if killed_at kill_arrival (consumed + 1) then (consumed + 1, st2)
    else worker_file_loop kill_arrival tree_offset calc_tree_probs rest (consumed + 1) st2

/-- Outer loop of SplitCountingWorker.run: while the kill_received flag is
down, a file is drawn from the work queue and processed; an empty queue ends
the loop normally, and a raised flag breaks out after the current file. -/
def worker_work_loop (kill_arrival : Option Nat) (tree_offset : Nat)
    (calc_tree_probs : Bool) :
    List (List PhyloTree) → Nat → SplitDistribution × (Finset Nat → ℚ) →
      Nat × (SplitDistribution × (Finset Nat → ℚ))
  | [], consumed, st => (consumed, st)
  | src :: rest, consumed, st =>
    if killed_at kill_arrival consumed then (consumed, st)
    else
      let r := worker_file_loop kill_arrival tree_offset calc_tree_probs src.enum consumed st
      if killed_at kill_arrival r.1 then r
      else worker_work_loop kill_arrival tree_offset calc_tree_probs rest r.1 r.2

/-- SplitCountingWorker.run (sumtrees.py lines 134-168): the work loop runs
from a fresh distribution, and at the end the worker publishes its split
distribution and topology hash map onto the result queues only when the
kill_received flag is down; when the flag is up it logs a warning and
publishes nothing. -/
def worker_run (kill_arrival : Option Nat) (tree_offset : Nat) (calc_tree_probs : Bool)
    (sources : List (List PhyloTree)) : Option (SplitDistribution × (Finset Nat → ℚ)) :=
  let r := worker_work_loop kill_arrival tree_offset calc_tree_probs sources 0
    (emptySplitDistribution, fun _ => 0)
  if killed_at kill_arrival r.1 then none else some r.2

/-- The collation loop of process_sources_parallel (sumtrees.py lines
244-253): a fresh split distribution is updated with each worker's partial
distribution in arrival order. -/
def collate_worker_results (ds : List SplitDistribution) : SplitDistribution :=
  ds.foldl SplitDistribution.update emptySplitDistribution

/-- The topology half of the collation loop: a fresh topology hash map is
merged with each worker's partial hash map in arrival order. -/
def collate_topology_results (ms : List (Finset Nat → ℚ)) : Finset Nat → ℚ :=
  ms.foldl update_topology_hash_map (fun _ => 0)

/-- Agreement of two split distributions on the statistics named by the
parallel merge contract: per-split counts, number of trees counted, and
total tree weight. -/
def agg_stats_eq (d1 d2 : SplitDistribution) : Prop :=
  (∀ s, d1.split_counts s = d2.split_counts s) ∧
    d1.total_trees_counted = d2.total_trees_counted ∧
    d1.sum_of_tree_weights = d2.sum_of_tree_weights

/-- discover_taxa (sumtrees.py lines 170-184): reads the first tree of the
given tree file and returns the taxon namespace populated by it, modelled as
the ordered list of taxon labels of that first tree. -/
def discover_taxa (treefile : List (List String)) : List String :=
  match treefile with
  | [] => []
  | first_tree :: _ => first_tree

/-- Modelled from the spec (section 4.1): the bit index that a taxon
namespace built from an ordered label list assigns to a label is the
label's position in that list. -/
def taxon_bit_index (taxon_labels : List String) (label : String) : Option Nat :=
  taxon_labels.findIdx? (fun l => l == label)

/-- The per-worker data fixed at construction time that matters for merge
validity: the broadcast ordered taxon label list from which the worker
builds its own taxon namespace (SplitCountingWorker, sumtrees.py lines
96-99), and the worker index. -/
structure WorkerSetup where
  taxon_labels : List String
  process_idx : Nat
deriving DecidableEq, Repr

/-- Worker construction in process_sources_parallel (sumtrees.py lines
207-241): the taxon namespace is discovered once from the first support
file, its ordered labels are extracted, and every worker is constructed
from that same label list before any worker is started. -/
def process_sources_parallel_workers (num_processes : Nat)
    (support_sources : List (List (List String))) : List WorkerSetup :=
  let taxon_labels := discover_taxa (support_sources.headD [])
  (List.range num_processes).map (fun idx => { taxon_labels := taxon_labels, process_idx := idx })

/-- Modelled from the spec: the value of the Python expression
Decimal(0.5).next_plus() under the default decimal context of 28 significant
digits.  Decimal(0.5) is exactly one half because 0.5 is exactly
representable in binary floating point, and the smallest 28-digit decimal
strictly above it exceeds it by 10 to the power -28. -/
def decimal_half_next_plus : ℚ := 1 / 2 + 1 / 10 ^ 28

/-- Modelled from the spec: rounding to the nearest integer with ties going
to the even integer, as IEEE-754 round-to-nearest-even does on the scaled
significand.  Doubles in the interval from one half (inclusive) to one
(exclusive) are exactly the rationals with denominator 2 to the 53 and
numerator between 2 to the 52 and 2 to the 53, so Python float conversion
on that interval is this rounding applied to the value scaled by 2 to the
53. -/
def round_half_even_num (x : ℚ) : ℤ :=
  if x - (⌊x⌋ : ℚ) < 1 / 2 then ⌊x⌋
  else if 1 / 2 < x - (⌊x⌋ : ℚ) then ⌊x⌋ + 1
  else if ⌊x⌋ % 2 = 0 then ⌊x⌋ else ⌊x⌋ + 1

/-- Conversion of a real value in the interval from one half (inclusive) to
one (exclusive) to the exact rational value of its nearest double: the
significand numerator is the half-even rounding of the value scaled by 2 to
the 53. -/
def round_to_double_in_half_one (q : ℚ) : ℚ :=
  ((round_half_even_num (q * 2 ^ 53) : ℤ) : ℚ) / 2 ^ 53

/-- GREATER_THAN_50_PERCENT (sumtrees.py line 71): the float value of
Decimal(0.5).next_plus(), the default of the min-clade-freq option. -/
def GREATER_THAN_50_PERCENT : ℚ := round_to_double_in_half_one decimal_half_next_plus

/-- The consensus branch of main_cli (sumtrees.py lines 875-884): a
min-clade-freq value above 1 is clamped to 1 with a warning, any other
value is passed unchanged to tree_from_splits. -/
def resolve_min_clade_freq (min_clade_freq : ℚ) : ℚ :=
  if 1 < min_clade_freq then 1 else min_clade_freq

/-- Binary popcount with explicit structural fuel, so that concrete values
reduce inside the kernel. -/
def popcount_fuel : Nat → Nat → Nat
  | 0, _ => 0
  | _ + 1, 0 => 0
  | fuel + 1, n + 1 => (n + 1) % 2 + popcount_fuel fuel ((n + 1) / 2)

/-- Number of set bits of a natural number. -/
def popcount (n : Nat) : Nat := popcount_fuel n n

/-- The triviality formula asserted by the claim: the split's popcount is
one, or equals the popcount of the full mask minus one. -/
def claimed_is_trivial (s m : Nat) : Bool :=
  decide (popcount s = 1) || decide (popcount s = popcount m - 1)

/-- Modelled from the spec and the repository's test tables: triviality of a
split against a taxon mask, computed on the split masked down to the taxon
mask; a masked split with at most one bit set, or with at least all but one
of the mask's bits set, is trivial.  In particular the empty and the full
masked split count as trivial. -/
def masked_is_trivial (s m : Nat) : Bool :=
  decide (popcount (s &&& m) ≤ 1) || decide (popcount m - 1 ≤ popcount (s &&& m))

/-- Expected values of is_trivial_split(i, 0xF) for i from 0 to 31,
transcribed from IsTrivialTest
(src/dendropy/test/test_datamodel_split_bitmasks.py lines 324-325). -/
def is_trivial_expected_0xF : List Bool :=
  [true, true, true, false, true, false, false, true,
   true, false, false, true, false, true, true, true,
   true, true, true, false, true, false, false, true,
   true, false, false, true, false, true, true, true]

/-- Expected values of is_trivial_split(i, 0x1F) for i from 0 to 31,
transcribed from IsTrivialTest (test file lines 326-327). -/
def is_trivial_expected_0x1F : List Bool :=
  [true, true, true, false, true, false, false, false,
   true, false, false, false, false, false, false, true,
   true, false, false, false, false, false, false, true,
   false, false, false, true, false, true, true, true]

/-- Expected values of is_trivial_split(i, 0x17) for i from 0 to 31,
transcribed from IsTrivialTest (test file lines 329-330). -/
def is_trivial_expected_0x17 : List Bool :=
  [true, true, true, false, true, false, false, true,
   true, true, true, false, true, false, false, true,
   true, false, false, true, false, true, true, true,
   true, false, false, true, false, true, true, true]

/-- Truth value of the guard at sumtrees.py line 852.  The Python code reads
the attribute master_split_distribution.is_all_counted_trees_rooted without
calling it; the repository's test suite calls is_all_counted_trees_rooted()
as a method (test_datamodel_split_bitmasks.py line 80), so the attribute is
a bound method object, and a bound method object is always truthy in
Python.  The guard therefore does not depend on the distribution at all. -/
def is_all_counted_trees_rooted_attribute : Bool := true

/-- Target tree rooting validation in main_cli (sumtrees.py lines 852-858):
the result is some exit code when the run terminates, and none when support
mapping proceeds on this target tree.  The first parameter is the actual
rooting state of the counted support trees, which the guard as written
never consults. -/
def target_tree_rooting_check (_all_counted_trees_rooted : Bool)
    (target_is_rooted : Bool) : Option Nat :=
  if is_all_counted_trees_rooted_attribute then
    if !target_is_rooted then some 1 else none
  else if target_is_rooted then some 1 else none

/-- Folding edge observations into a distribution adds, per split, the edge
multiplicity times the tree weight to the split's count. -/
theorem foldl_add_edge_split_counts (w : ℚ) (es : List (Nat × ℚ)) :
    ∀ (d : SplitDistribution) (s : Nat),
      (es.foldl (fun acc e => add_edge_observation acc e.1 e.2 w) d).split_counts s
        = d.split_counts s + ((es.countP (fun e => decide (e.1 = s))) : ℚ) * w := by
  induction es with
  | nil => intro d s; simp
  | cons e rest ih =>
    intro d s
    rw [List.foldl_cons, ih, List.countP_cons]
    by_cases h : s = e.1
    · have h2 : (decide (e.1 = s)) = true := by simp [h]
      simp only [add_edge_observation, h2, if_true, if_pos h]
      push_cast
      ring
    · have h2 : (decide (e.1 = s)) = false := by
        simp only [decide_eq_false_iff_not]
        exact fun hs => h hs.symm
      simp [add_edge_observation, h2, if_neg h]

/-- Folding edge observations leaves the totals and the rooting-type set of a
distribution unchanged. -/
theorem foldl_add_edge_fixed_fields (w : ℚ) (es : List (Nat × ℚ)) :
    ∀ d : SplitDistribution,
      (es.foldl (fun acc e => add_edge_observation acc e.1 e.2 w) d).total_trees_counted
          = d.total_trees_counted
      ∧ (es.foldl (fun acc e => add_edge_observation acc e.1 e.2 w) d).sum_of_tree_weights
          = d.sum_of_tree_weights
      ∧ (es.foldl (fun acc e => add_edge_observation acc e.1 e.2 w) d).tree_rooting_types_counted
          = d.tree_rooting_types_counted := by
  induction es with
  | nil => intro d; exact ⟨rfl, rfl, rfl⟩
  | cons e rest ih =>
    intro d
    rw [List.foldl_cons]
    obtain ⟨h1, h2, h3⟩ := ih (add_edge_observation d e.1 e.2 w)
    exact ⟨h1.trans rfl, h2.trans rfl, h3.trans rfl⟩

/-- Counting one tree adds its per-split contribution to the counts. -/
theorem count_splits_on_tree_split_counts (d : SplitDistribution) (t : PhyloTree) (s : Nat) :
    (count_splits_on_tree d t).split_counts s = d.split_counts s + tree_split_weight t s := by
  unfold count_splits_on_tree tree_split_weight
  exact foldl_add_edge_split_counts t.weight t.edges d s

/-- Counting one tree increments the number of trees counted. -/
theorem count_splits_on_tree_total (d : SplitDistribution) (t : PhyloTree) :
    (count_splits_on_tree d t).total_trees_counted = d.total_trees_counted + 1 := by
  unfold count_splits_on_tree
  exact congrArg (· + 1) (foldl_add_edge_fixed_fields t.weight t.edges d).1

/-- Counting one tree adds its weight to the total tree weight. -/
theorem count_splits_on_tree_weights (d : SplitDistribution) (t : PhyloTree) :
    (count_splits_on_tree d t).sum_of_tree_weights = d.sum_of_tree_weights + t.weight := by
  unfold count_splits_on_tree
  exact congrArg (· + t.weight) (foldl_add_edge_fixed_fields t.weight t.edges d).2.1

/-- Counting one tree records its rooting state into the rooting-type set. -/
theorem count_splits_on_tree_rootings (d : SplitDistribution) (t : PhyloTree) (r : Rooting) :
    (count_splits_on_tree d t).tree_rooting_types_counted r
      = (d.tree_rooting_types_counted r || decide (r = t.rooting)) := by
  show ((t.edges.foldl (fun acc e => add_edge_observation acc e.1 e.2 t.weight)
        d).tree_rooting_types_counted r || decide (r = t.rooting))
    = (d.tree_rooting_types_counted r || decide (r = t.rooting))
  rw [(foldl_add_edge_fixed_fields t.weight t.edges d).2.2]

/-- Closed form of the per-split counts after counting a list of trees. -/
theorem count_splits_on_trees_split_counts (ts : List PhyloTree) :
    ∀ (d : SplitDistribution) (s : Nat),
      (count_splits_on_trees d ts).split_counts s
        = d.split_counts s + (ts.map (fun t => tree_split_weight t s)).sum := by
  induction ts with
  | nil => intro d s; simp [count_splits_on_trees]
  | cons t rest ih =>
    intro d s
    simp only [count_splits_on_trees, List.foldl_cons] at ih ⊢
    rw [ih, count_splits_on_tree_split_counts]
    simp [add_assoc]

/-- Closed form of the number of trees counted after counting a list. -/
theorem count_splits_on_trees_total (ts : List PhyloTree) :
    ∀ d : SplitDistribution,
      (count_splits_on_trees d ts).total_trees_counted
        = d.total_trees_counted + ts.length := by
  induction ts with
  | nil => intro d; simp [count_splits_on_trees]
  | cons t rest ih =>
    intro d
    simp only [count_splits_on_trees, List.foldl_cons] at ih ⊢
    rw [ih, count_splits_on_tree_total, List.length_cons]
    omega

/-- Closed form of the total tree weight after counting a list of trees. -/
theorem count_splits_on_trees_weights (ts : List PhyloTree) :
    ∀ d : SplitDistribution,
      (count_splits_on_trees d ts).sum_of_tree_weights
        = d.sum_of_tree_weights + (ts.map PhyloTree.weight).sum := by
  induction ts with
  | nil => intro d; simp [count_splits_on_trees]
  | cons t rest ih =>
    intro d
    simp only [count_splits_on_trees, List.foldl_cons] at ih ⊢
    rw [ih, count_splits_on_tree_weights]
    simp [add_assoc]

/-- Closed form of the rooting-type set after counting a list of trees. -/
theorem count_splits_on_trees_rootings (ts : List PhyloTree) :
    ∀ (d : SplitDistribution) (r : Rooting),
      (count_splits_on_trees d ts).tree_rooting_types_counted r
        = (d.tree_rooting_types_counted r || ts.any (fun t => decide (r = t.rooting))) := by
  induction ts with
  | nil => intro d r; simp [count_splits_on_trees]
  | cons t rest ih =>
    intro d r
    simp only [count_splits_on_trees, List.foldl_cons] at ih ⊢
    rw [ih, count_splits_on_tree_rootings, List.any_cons]
    simp [Bool.or_assoc]

/-- Counting over a concatenation is counting the parts in sequence. -/
theorem count_splits_on_trees_append (d : SplitDistribution) (xs ys : List PhyloTree) :
    count_splits_on_trees d (xs ++ ys)
      = count_splits_on_trees (count_splits_on_trees d xs) ys := by
  simp [count_splits_on_trees]

/-- Closed form of a topology hash map after counting a list of trees. -/
theorem topology_count_trees_apply (ts : List PhyloTree) :
    ∀ (m : Finset Nat → ℚ) (key : Finset Nat),
      topology_count_trees m ts key
        = m key + (ts.map (fun t => if key = topology_key t then t.weight else 0)).sum := by
  induction ts with
  | nil => intro m key; simp [topology_count_trees]
  | cons t rest ih =>
    intro m key
    simp only [topology_count_trees, List.foldl_cons] at ih ⊢
    rw [ih]
    by_cases h : key = topology_key t
    · simp [topology_count, h, add_assoc]
    · simp [topology_count, h]

/-- Topology counting over a concatenation is counting the parts in
sequence. -/
theorem topology_count_trees_append (m : Finset Nat → ℚ) (xs ys : List PhyloTree) :
    topology_count_trees m (xs ++ ys)
      = topology_count_trees (topology_count_trees m xs) ys := by
  simp [topology_count_trees]

/-- Folding the merge operation sums the per-split counts. -/
theorem foldl_update_split_counts (ds : List SplitDistribution) :
    ∀ (d0 : SplitDistribution) (s : Nat),
      (ds.foldl SplitDistribution.update d0).split_counts s
        = d0.split_counts s + (ds.map (fun d => d.split_counts s)).sum := by
  induction ds with
  | nil => intro d0 s; simp
  | cons d rest ih =>
    intro d0 s
    rw [List.foldl_cons, ih]
    simp [SplitDistribution.update, add_assoc]

/-- Folding the merge operation sums the numbers of trees counted. -/
theorem foldl_update_total (ds : List SplitDistribution) :
    ∀ d0 : SplitDistribution,
      (ds.foldl SplitDistribution.update d0).total_trees_counted
        = d0.total_trees_counted + (ds.map (fun d => d.total_trees_counted)).sum := by
  induction ds with
  | nil => intro d0; simp
  | cons d rest ih =>
    intro d0
    rw [List.foldl_cons, ih]
    simp [SplitDistribution.update, add_assoc]

/-- Folding the merge operation sums the total tree weights. -/
theorem foldl_update_weights (ds : List SplitDistribution) :
    ∀ d0 : SplitDistribution,
      (ds.foldl SplitDistribution.update d0).sum_of_tree_weights
        = d0.sum_of_tree_weights + (ds.map (fun d => d.sum_of_tree_weights)).sum := by
  induction ds with
  | nil => intro d0; simp
  | cons d rest ih =>
    intro d0
    rw [List.foldl_cons, ih]
    simp [SplitDistribution.update, add_assoc]

/-- Folding the topology merge sums the per-key counts. -/
theorem foldl_topology_update_apply (ms : List (Finset Nat → ℚ)) :
    ∀ (m0 : Finset Nat → ℚ) (key : Finset Nat),
      (ms.foldl update_topology_hash_map m0) key
        = m0 key + (ms.map (fun m => m key)).sum := by
  induction ms with
  | nil => intro m0 key; simp
  | cons m rest ih =>
    intro m0 key
    rw [List.foldl_cons, ih]
    simp [update_topology_hash_map, add_assoc]

/-- A tree that clears the offset is kept by the burn-in filter. -/
theorem offset_counted_trees_cons_counted (off : Nat) (p : Nat × PhyloTree)
    (L : List (Nat × PhyloTree)) (h : off ≤ p.1) :
    offset_counted_trees off (p :: L) = p.2 :: offset_counted_trees off L := by
  simp [offset_counted_trees, h]

/-- A tree before the offset is dropped by the burn-in filter. -/
theorem offset_counted_trees_cons_skipped (off : Nat) (p : Nat × PhyloTree)
    (L : List (Nat × PhyloTree)) (h : ¬ off ≤ p.1) :
    offset_counted_trees off (p :: L) = offset_counted_trees off L := by
  simp [offset_counted_trees, h]

/-- With a zero burn-in offset every enumerated tree is counted. -/
theorem offset_counted_trees_zero (L : List (Nat × PhyloTree)) :
    offset_counted_trees 0 L = L.map Prod.snd := by
  induction L with
  | nil => rfl
  | cons p rest ih =>
    rw [offset_counted_trees_cons_counted 0 p rest (Nat.zero_le _), ih, List.map_cons]

/-- With a zero burn-in offset the serial loop counts the whole
concatenation of the sources. -/
theorem serial_counted_trees_zero (sources : List (List PhyloTree)) :
    serial_counted_trees sources 0 = sources.flatten := by
  rw [serial_counted_trees, offset_counted_trees_zero, List.enum_map_snd]

/-- An error state of the serial loop is absorbing. -/
theorem serial_fold_error (tree_offset : Nat) (L : List (Nat × PhyloTree)) :
    ∀ c : Nat, L.foldl (serial_tree_step tree_offset) (.error c) = .error c := by
  induction L with
  | nil => intro c; rfl
  | cons p rest ih => intro c; rw [List.foldl_cons]; exact ih c

/-- The serial loop either aborts with exit code 1 or ends in the state
obtained by counting exactly the trees that clear the burn-in offset. -/
theorem serial_fold_char (off : Nat) (L : List (Nat × PhyloTree)) :
    ∀ st : SplitDistribution × (Finset Nat → ℚ),
      L.foldl (serial_tree_step off) (.ok st) = .error 1
      ∨ L.foldl (serial_tree_step off) (.ok st)
          = .ok (count_splits_on_trees st.1 (offset_counted_trees off L),
              topology_count_trees st.2 (offset_counted_trees off L)) := by
  induction L with
  | nil =>
    intro st
    right
    simp [offset_counted_trees, count_splits_on_trees, topology_count_trees]
  | cons p rest ih =>
    intro st
    rw [List.foldl_cons]
    by_cases hof : off ≤ p.1
    · by_cases hm : 1 < rooting_types_count (count_splits_on_tree st.1 p.2)
      · left
        have e : serial_tree_step off (.ok st) p = .error 1 := by
          simp [serial_tree_step, hof, hm]
        rw [e]
        exact serial_fold_error off rest 1
      · have e : serial_tree_step off (.ok st) p
            = .ok (count_splits_on_tree st.1 p.2, topology_count st.2 p.2) := by
          simp [serial_tree_step, hof, hm]
        rw [e]
        rcases ih (count_splits_on_tree st.1 p.2, topology_count st.2 p.2) with h | h
        · left; exact h
        · right
          rw [h, offset_counted_trees_cons_counted off p rest hof]
          rfl
    · have e : serial_tree_step off (.ok st) p = .ok st := by
        simp [serial_tree_step, hof]
      rw [e]
      rcases ih st with h | h
      · left; exact h
      · right
        rw [h, offset_counted_trees_cons_skipped off p rest hof]

/-- Invariant of the serial loop: starting from a state whose rooting-type
set is not yet mixed, the loop either aborts with exit code 1, or it ends in
a state that is still not mixed, retains every rooting type already seen,
and has seen the rooting type of every counted tree. -/
theorem serial_fold_rooting_invariant (off : Nat) (L : List (Nat × PhyloTree)) :
    ∀ st : SplitDistribution × (Finset Nat → ℚ),
      rooting_types_count st.1 ≤ 1 →
      L.foldl (serial_tree_step off) (.ok st) = .error 1
      ∨ ∃ st2, L.foldl (serial_tree_step off) (.ok st) = .ok st2
          ∧ rooting_types_count st2.1 ≤ 1
          ∧ (∀ r, st.1.tree_rooting_types_counted r = true →
              st2.1.tree_rooting_types_counted r = true)
          ∧ (∀ p ∈ L, off ≤ p.1 →
              st2.1.tree_rooting_types_counted p.2.rooting = true) := by
  induction L with
  | nil =>
    intro st h1
    right
    exact ⟨st, rfl, h1, fun r hr => hr, by simp⟩
  | cons p rest ih =>
    intro st h1
    rw [List.foldl_cons]
    by_cases hof : off ≤ p.1
    · by_cases hm : 1 < rooting_types_count (count_splits_on_tree st.1 p.2)
      · left
        have e : serial_tree_step off (.ok st) p = .error 1 := by
          simp [serial_tree_step, hof, hm]
        rw [e]
        exact serial_fold_error off rest 1
      · have e : serial_tree_step off (.ok st) p
            = .ok (count_splits_on_tree st.1 p.2, topology_count st.2 p.2) := by
          simp [serial_tree_step, hof, hm]
        rw [e]
        have h2 : rooting_types_count (count_splits_on_tree st.1 p.2) ≤ 1 := by omega
        rcases ih (count_splits_on_tree st.1 p.2, topology_count st.2 p.2) h2 with h | h
        · left; exact h
        · obtain ⟨st2, he, hc, hmono, hmem⟩ := h
          right
          refine ⟨st2, he, hc, ?_, ?_⟩
          · intro r hr
            apply hmono
            rw [count_splits_on_tree_rootings]
            simp [hr]
          · intro q hq hqo
            rcases List.mem_cons.1 hq with hq | hq
            · subst hq
              apply hmono
              rw [count_splits_on_tree_rootings]
              simp
            · exact hmem q hq hqo
    · have e : serial_tree_step off (.ok st) p = .ok st := by
        simp [serial_tree_step, hof]
      rw [e]
      rcases ih st h1 with h | h
      · left; exact h
      · obtain ⟨st2, he, hc, hmono, hmem⟩ := h
        right
        refine ⟨st2, he, hc, hmono, ?_⟩
        intro q hq hqo
        rcases List.mem_cons.1 hq with hq | hq
        · subst hq; exact absurd hqo hof
        · exact hmem q hq hqo

/-- Tree total of a cons of sources. -/
theorem total_trees_in_sources_cons (src : List PhyloTree) (rest : List (List PhyloTree)) :
    total_trees_in_sources (src :: rest) = src.length + total_trees_in_sources rest := by
  simp [total_trees_in_sources]

/-- Worker-counted trees of a cons of sources. -/
theorem worker_counted_trees_cons (src : List PhyloTree) (rest : List (List PhyloTree))
    (off : Nat) :
    worker_counted_trees (src :: rest) off
      = offset_counted_trees off src.enum ++ worker_counted_trees rest off := by
  simp [worker_counted_trees]

/-- Folding the worker's per-tree body over an enumerated file counts exactly
the trees clearing the burn-in offset, into the distribution and, when tree
probabilities are requested, into the topology hash map. -/
theorem foldl_worker_process_tree (off : Nat) (ctp : Bool) (L : List (Nat × PhyloTree)) :
    ∀ st : SplitDistribution × (Finset Nat → ℚ),
      L.foldl (worker_process_tree off ctp) st
        = (count_splits_on_trees st.1 (offset_counted_trees off L),
            if ctp then topology_count_trees st.2 (offset_counted_trees off L) else st.2) := by
  induction L with
  | nil =>
    intro st
    simp [offset_counted_trees, count_splits_on_trees, topology_count_trees]
  | cons p rest ih =>
    intro st
    rw [List.foldl_cons]
    by_cases hof : off ≤ p.1
    · have e : worker_process_tree off ctp st p
          = (count_splits_on_tree st.1 p.2,
              if ctp then topology_count st.2 p.2 else st.2) := by
        simp [worker_process_tree, hof]
      rw [e, ih, offset_counted_trees_cons_counted off p rest hof]
      cases ctp <;> simp [count_splits_on_trees, topology_count_trees]
    · have e : worker_process_tree off ctp st p = st := by
        simp [worker_process_tree, hof]
      rw [e, ih, offset_counted_trees_cons_skipped off p rest hof]

/-- With no kill signal the inner loop consumes the whole file and performs
the per-tree fold. -/
theorem worker_file_loop_none (off : Nat) (ctp : Bool) (L : List (Nat × PhyloTree)) :
    ∀ (n : Nat) (st : SplitDistribution × (Finset Nat → ℚ)),
      worker_file_loop none off ctp L n st
        = (n + L.length, L.foldl (worker_process_tree off ctp) st) := by
  induction L with
  | nil => intro n st; rfl
  | cons p rest ih =>
    intro n st
    have e1 : worker_file_loop none off ctp (p :: rest) n st
        = worker_file_loop none off ctp rest (n + 1) (worker_process_tree off ctp st p) := rfl
    rw [e1, ih, List.length_cons, List.foldl_cons]
    have e2 : n + 1 + rest.length = n + (rest.length + 1) := by omega
    rw [e2]

/-- With no kill signal the work loop consumes every file and ends with the
distribution and topology hash map over all trees clearing the per-file
burn-in offset. -/
theorem worker_work_loop_none (off : Nat) (ctp : Bool) (sources : List (List PhyloTree)) :
    ∀ (n : Nat) (st : SplitDistribution × (Finset Nat → ℚ)),
      worker_work_loop none off ctp sources n st
        = (n + total_trees_in_sources sources,
            (count_splits_on_trees st.1 (worker_counted_trees sources off),
              if ctp then topology_count_trees st.2 (worker_counted_trees sources off)
              else st.2)) := by
  induction sources with
  | nil =>
    intro n st
    show (n, st) = _
    simp [total_trees_in_sources, worker_counted_trees, count_splits_on_trees,
      topology_count_trees]
  | cons src rest ih =>
    intro n st
    have e1 : worker_work_loop none off ctp (src :: rest) n st
        = worker_work_loop none off ctp rest
            (worker_file_loop none off ctp src.enum n st).1
            (worker_file_loop none off ctp src.enum n st).2 := rfl
    rw [e1, worker_file_loop_none off ctp src.enum n st,
      foldl_worker_process_tree off ctp src.enum st]
    rw [ih]
    rw [worker_counted_trees_cons src rest off, total_trees_in_sources_cons src rest,
      List.enum_length]
    have e2 : n + src.length + total_trees_in_sources rest
        = n + (src.length + total_trees_in_sources rest) := by omega
    rw [e2, count_splits_on_trees_append]
    cases ctp <;> simp [topology_count_trees_append]

/-- With a kill signal the inner loop either ends with the flag raised at
its final consumption count or has consumed the whole file. -/
theorem worker_file_loop_progress (k off : Nat) (ctp : Bool) (L : List (Nat × PhyloTree)) :
    ∀ (n : Nat) (st : SplitDistribution × (Finset Nat → ℚ)),
      killed_at (some k) (worker_file_loop (some k) off ctp L n st).1 = true
      ∨ (worker_file_loop (some k) off ctp L n st).1 = n + L.length := by
  induction L with
  | nil => intro n st; right; rfl
  | cons p rest ih =>
    intro n st
    simp only [worker_file_loop]
    by_cases hk : killed_at (some k) (n + 1) = true
    · rw [if_pos hk]; left; exact hk
    · rw [if_neg hk]
      rcases ih (n + 1) (worker_process_tree off ctp st p) with h | h
      · left; exact h
      · right; rw [h, List.length_cons]; omega

/-- With a kill signal the work loop either ends with the flag raised at its
final consumption count or has consumed every tree of every file. -/
theorem worker_work_loop_progress (k off : Nat) (ctp : Bool)
    (sources : List (List PhyloTree)) :
    ∀ (n : Nat) (st : SplitDistribution × (Finset Nat → ℚ)),
      killed_at (some k) (worker_work_loop (some k) off ctp sources n st).1 = true
      ∨ (worker_work_loop (some k) off ctp sources n st).1
          = n + total_trees_in_sources sources := by
  induction sources with
  | nil => intro n st; right; simp [worker_work_loop, total_trees_in_sources]
  | cons src rest ih =>
    intro n st
    simp only [worker_work_loop]
    by_cases hk : killed_at (some k) n = true
    · rw [if_pos hk]; left; exact hk
    · rw [if_neg hk]
      by_cases hk2 :
          killed_at (some k) (worker_file_loop (some k) off ctp src.enum n st).1 = true
      · rw [if_pos hk2]; left; exact hk2
      · rw [if_neg hk2]
        rcases worker_file_loop_progress k off ctp src.enum n st with h | h
        · exact absurd h hk2
        · rcases ih (worker_file_loop (some k) off ctp src.enum n st).1
              (worker_file_loop (some k) off ctp src.enum n st).2 with h2 | h2
          · left; exact h2
          · right
            rw [h2, h, List.enum_length, total_trees_in_sources_cons]
            omega

/-- Any value exceeding one half by a nonnegative amount smaller than half
an ulp of doubles at one half rounds to exactly one half. -/
theorem round_to_double_half_plus (eps : ℚ) (h0 : 0 ≤ eps) (h1 : eps < 1 / 2 ^ 54) :
    round_to_double_in_half_one (1 / 2 + eps) = 1 / 2 := by
  have hd : eps * 2 ^ 53 < 1 / 2 := by
    have h2 : eps * 2 ^ 53 < (1 / 2 ^ 54) * 2 ^ 53 :=
      mul_lt_mul_of_pos_right h1 (by positivity)
    have h3 : (1 / 2 ^ 54 : ℚ) * 2 ^ 53 = 1 / 2 := by norm_num [pow_succ]
    rw [h3] at h2
    exact h2
  have hd0 : 0 ≤ eps * 2 ^ 53 := by positivity
  have hscaled : (1 / 2 + eps) * (2 ^ 53 : ℚ) = 2 ^ 52 + eps * 2 ^ 53 := by ring
  have hlo : ⌊((1 / 2 + eps) * (2 ^ 53 : ℚ))⌋ = 2 ^ 52 := by
    rw [hscaled, Int.floor_eq_iff]
    constructor
    · push_cast
      linarith
    · push_cast
      linarith
  have hfrac : (1 / 2 + eps) * (2 ^ 53 : ℚ)
      - ((⌊((1 / 2 + eps) * (2 ^ 53 : ℚ))⌋ : ℤ) : ℚ) = eps * 2 ^ 53 := by
    rw [hlo, hscaled]
    push_cast
    ring
  simp only [round_to_double_in_half_one, round_half_even_num]
  rw [hfrac, if_pos hd, hlo]
  push_cast
  norm_num [pow_succ]

/-- Sum of a mapped value over a flattened list equals the sum over the
parts of the per-part sums. -/
theorem sum_map_flatten (f : PhyloTree → ℚ) (subsets : List (List PhyloTree)) :
    (subsets.flatten.map f).sum = (subsets.map (fun sub => (sub.map f).sum)).sum := by
  induction subsets with
  | nil => rfl
  | cons sub rest ih => simp [ih, Function.comp_def]

/-- Length of a flattened list as the sum of the part lengths. -/
theorem length_flatten_eq (subsets : List (List PhyloTree)) :
    subsets.flatten.length = (subsets.map List.length).sum := by
  induction subsets with
  | nil => rfl
  | cons sub rest ih => simp [ih]

/-- Per-split counts of the collation of per-subset distributions. -/
theorem collate_counts_closed (xs : List (List PhyloTree)) (s : Nat) :
    (collate_worker_results
        (xs.map (count_splits_on_trees emptySplitDistribution))).split_counts s
      = (xs.map (fun sub => (sub.map (fun t => tree_split_weight t s)).sum)).sum := by
  simp only [collate_worker_results]
  rw [foldl_update_split_counts]
  simp [List.map_map, Function.comp_def, count_splits_on_trees_split_counts,
    emptySplitDistribution]

/-- Trees-counted total of the collation of per-subset distributions. -/
theorem collate_total_closed (xs : List (List PhyloTree)) :
    (collate_worker_results
        (xs.map (count_splits_on_trees emptySplitDistribution))).total_trees_counted
      = (xs.map List.length).sum := by
  simp only [collate_worker_results]
  rw [foldl_update_total]
  simp [List.map_map, Function.comp_def, count_splits_on_trees_total, emptySplitDistribution]

/-- Weight total of the collation of per-subset distributions. -/
theorem collate_weights_closed (xs : List (List PhyloTree)) :
    (collate_worker_results
        (xs.map (count_splits_on_trees emptySplitDistribution))).sum_of_tree_weights
      = (xs.map (fun sub => (sub.map PhyloTree.weight).sum)).sum := by
  simp only [collate_worker_results]
  rw [foldl_update_weights]
  simp [List.map_map, Function.comp_def, count_splits_on_trees_weights, emptySplitDistribution]

/-- C1: for every partition of the input trees into disjoint subsets handled
by separate workers, collating the workers' partial split distributions with
SplitDistribution.update, and their topology hash maps with
update_topology_hash_map, as the collation loop of process_sources_parallel
does, yields in any merge order the same per-split counts, total tree
weight, and total_trees_counted as a single serial pass over the
concatenation of the subsets; the merge is commutative and associative on
those statistics, and process_sources_serial, whenever it completes without
aborting, returns exactly the single-pass distribution and topology map. -/
theorem parallel_merge_collation_agrees_with_serial_pass
    (subsets subsets2 : List (List PhyloTree)) (hperm : subsets.Perm subsets2) :
    agg_stats_eq
        (collate_worker_results
          (subsets.map (count_splits_on_trees emptySplitDistribution)))
        (count_splits_on_trees emptySplitDistribution subsets.flatten)
    ∧ (∀ key, collate_topology_results
            (subsets.map (topology_count_trees (fun _ => 0))) key
          = topology_count_trees (fun _ => 0) subsets.flatten key)
    ∧ agg_stats_eq
        (collate_worker_results
          (subsets2.map (count_splits_on_trees emptySplitDistribution)))
        (collate_worker_results
          (subsets.map (count_splits_on_trees emptySplitDistribution)))
    ∧ (∀ d1 d2 : SplitDistribution, agg_stats_eq (d1.update d2) (d2.update d1))
    ∧ (∀ d1 d2 d3 : SplitDistribution,
        agg_stats_eq ((d1.update d2).update d3) (d1.update (d2.update d3)))
    ∧ (∀ d m, process_sources_serial subsets 0 = .ok (d, m) →
        agg_stats_eq d (count_splits_on_trees emptySplitDistribution subsets.flatten)
        ∧ ∀ key, m key = topology_count_trees (fun _ => 0) subsets.flatten key) := by
  have serial_counts : ∀ s : Nat,
      (count_splits_on_trees emptySplitDistribution subsets.flatten).split_counts s
        = (subsets.map (fun sub => (sub.map (fun t => tree_split_weight t s)).sum)).sum := by
    intro s
    rw [count_splits_on_trees_split_counts, sum_map_flatten (fun t => tree_split_weight t s)]
    simp [emptySplitDistribution]
  have serial_total :
      (count_splits_on_trees emptySplitDistribution subsets.flatten).total_trees_counted
        = (subsets.map List.length).sum := by
    rw [count_splits_on_trees_total, length_flatten_eq]
    simp [emptySplitDistribution]
  have serial_weights :
      (count_splits_on_trees emptySplitDistribution subsets.flatten).sum_of_tree_weights
        = (subsets.map (fun sub => (sub.map PhyloTree.weight).sum)).sum := by
    rw [count_splits_on_trees_weights, sum_map_flatten PhyloTree.weight]
    simp [emptySplitDistribution]
  refine ⟨⟨fun s => (collate_counts_closed subsets s).trans (serial_counts s).symm,
      (collate_total_closed subsets).trans serial_total.symm,
      (collate_weights_closed subsets).trans serial_weights.symm⟩, ?_, ?_, ?_, ?_, ?_⟩
  · intro key
    simp only [collate_topology_results]
    rw [foldl_topology_update_apply, topology_count_trees_apply,
      sum_map_flatten (fun t => if key = topology_key t then t.weight else 0)]
    simp [List.map_map, Function.comp_def, topology_count_trees_apply]
  · exact ⟨fun s => ((collate_counts_closed subsets2 s).trans
        ((hperm.map (fun sub => (sub.map (fun t => tree_split_weight t s)).sum)).sum_eq).symm).trans
        (collate_counts_closed subsets s).symm,
      ((collate_total_closed subsets2).trans
        ((hperm.map List.length).sum_eq).symm).trans (collate_total_closed subsets).symm,
      ((collate_weights_closed subsets2).trans
        ((hperm.map (fun sub => (sub.map PhyloTree.weight).sum)).sum_eq).symm).trans
        (collate_weights_closed subsets).symm⟩
  · intro d1 d2
    exact ⟨fun s => by simp [SplitDistribution.update, add_comm],
      by simp [SplitDistribution.update, Nat.add_comm],
      by simp [SplitDistribution.update, add_comm]⟩
  · intro d1 d2 d3
    exact ⟨fun s => by simp [SplitDistribution.update, add_assoc],
      by simp [SplitDistribution.update, Nat.add_assoc],
      by simp [SplitDistribution.update, add_assoc]⟩
  · intro d m h
    rcases serial_fold_char 0 subsets.flatten.enum (emptySplitDistribution, fun _ => 0)
      with herr | hok
    · simp only [process_sources_serial] at h
      rw [h] at herr
      exact absurd herr (by simp)
    · simp only [process_sources_serial] at h
      rw [h, Except.ok.injEq, Prod.mk.injEq] at hok
      obtain ⟨hd, hm⟩ := hok
      constructor
      · rw [offset_counted_trees_zero, List.enum_map_snd] at hd
        rw [hd]
        exact ⟨fun s => rfl, rfl, rfl⟩
      · intro key
        rw [offset_counted_trees_zero, List.enum_map_snd] at hm
        rw [hm]

/-- First unrooted demonstration tree, used in concrete witnesses. -/
def demo_tree_a : PhyloTree := { edges := [(1, 1)], rooting := .unrooted, weight := 1 }

/-- Second unrooted demonstration tree. -/
def demo_tree_b : PhyloTree := { edges := [(2, 1)], rooting := .unrooted, weight := 1 }

/-- Third unrooted demonstration tree. -/
def demo_tree_c : PhyloTree := { edges := [(4, 1)], rooting := .unrooted, weight := 1 }

/-- Fourth unrooted demonstration tree. -/
def demo_tree_d : PhyloTree := { edges := [(8, 1)], rooting := .unrooted, weight := 1 }

/-- A rooted demonstration tree. -/
def demo_rooted_tree : PhyloTree := { edges := [(3, 1)], rooting := .rooted, weight := 1 }

/-- Witness for the merge contract at a concrete two-subset partition with
the merge order swapped. -/
theorem parallel_merge_collation_agrees_with_serial_pass_witness :
    [[demo_tree_a], [demo_tree_b]].Perm [[demo_tree_b], [demo_tree_a]]
    ∧ (agg_stats_eq
          (collate_worker_results
            ([[demo_tree_a], [demo_tree_b]].map (count_splits_on_trees emptySplitDistribution)))
          (count_splits_on_trees emptySplitDistribution [[demo_tree_a], [demo_tree_b]].flatten)
      ∧ (∀ key, collate_topology_results
              ([[demo_tree_a], [demo_tree_b]].map (topology_count_trees (fun _ => 0))) key
            = topology_count_trees (fun _ => 0) [[demo_tree_a], [demo_tree_b]].flatten key)
      ∧ agg_stats_eq
          (collate_worker_results
            ([[demo_tree_b], [demo_tree_a]].map (count_splits_on_trees emptySplitDistribution)))
          (collate_worker_results
            ([[demo_tree_a], [demo_tree_b]].map (count_splits_on_trees emptySplitDistribution)))
      ∧ (∀ d1 d2 : SplitDistribution, agg_stats_eq (d1.update d2) (d2.update d1))
      ∧ (∀ d1 d2 d3 : SplitDistribution,
          agg_stats_eq ((d1.update d2).update d3) (d1.update (d2.update d3)))
      ∧ (∀ d m, process_sources_serial [[demo_tree_a], [demo_tree_b]] 0 = .ok (d, m) →
          agg_stats_eq d
            (count_splits_on_trees emptySplitDistribution
              [[demo_tree_a], [demo_tree_b]].flatten)
          ∧ ∀ key, m key
              = topology_count_trees (fun _ => 0)
                  [[demo_tree_a], [demo_tree_b]].flatten key)) :=
  ⟨by decide,
    parallel_merge_collation_agrees_with_serial_pass [[demo_tree_a], [demo_tree_b]]
      [[demo_tree_b], [demo_tree_a]] (by decide)⟩

/-- C2: whenever the rooting types counted by the serial loop come to
contain both rooted and unrooted, process_sources_serial aborts the whole
run with exit code 1: it returns no split distribution and no topology hash
map, so none of the summary outputs of main_cli (consensus tree,
support-mapped tree, tree-probability table, split-edge table), which are
all computed from that return value, can be produced from a mixed run. -/
theorem mixed_rooting_aborts_serial_run (sources : List (List PhyloTree)) (tree_offset : Nat)
    (hr : ∃ t ∈ serial_counted_trees sources tree_offset, t.rooting = .rooted)
    (hu : ∃ t ∈ serial_counted_trees sources tree_offset, t.rooting = .unrooted) :
    process_sources_serial sources tree_offset = .error 1 := by
  rcases serial_fold_rooting_invariant tree_offset sources.flatten.enum
      (emptySplitDistribution, fun _ => 0)
      (by simp [emptySplitDistribution, rooting_types_count]) with herr | hok
  · simpa [process_sources_serial] using herr
  · obtain ⟨st2, _, hc, _, hmem⟩ := hok
    exfalso
    obtain ⟨tr, htr, hrr⟩ := hr
    obtain ⟨tu, htu, huu⟩ := hu
    rw [serial_counted_trees, offset_counted_trees] at htr htu
    obtain ⟨pr, hpr, hprt⟩ := List.mem_map.1 htr
    obtain ⟨pu, hpu, hput⟩ := List.mem_map.1 htu
    have hpr2 := List.mem_filter.1 hpr
    have hpu2 := List.mem_filter.1 hpu
    have hrooted : st2.1.tree_rooting_types_counted .rooted = true := by
      have hh := hmem pr hpr2.1 (by simpa using hpr2.2)
      rw [hprt, hrr] at hh
      exact hh
    have hunrooted : st2.1.tree_rooting_types_counted .unrooted = true := by
      have hh := hmem pu hpu2.1 (by simpa using hpu2.2)
      rw [hput, huu] at hh
      exact hh
    have h2 : rooting_types_count st2.1 = 2 := by
      simp [rooting_types_count, hrooted, hunrooted]
    omega

/-- Witness for the mixed-rooting abort on one source holding a rooted tree
followed by an unrooted tree. -/
theorem mixed_rooting_aborts_serial_run_witness :
    (∃ t ∈ serial_counted_trees [[demo_rooted_tree, demo_tree_a]] 0, t.rooting = .rooted)
    ∧ (∃ t ∈ serial_counted_trees [[demo_rooted_tree, demo_tree_a]] 0, t.rooting = .unrooted)
    ∧ process_sources_serial [[demo_rooted_tree, demo_tree_a]] 0 = .error 1 :=
  ⟨by decide, by decide,
    mixed_rooting_aborts_serial_run [[demo_rooted_tree, demo_tree_a]] 0
      (by decide) (by decide)⟩

/-- C3: GREATER_THAN_50_PERCENT is exactly one half, not a value strictly
above it: the float conversion of Decimal(0.5).next_plus() rounds straight
back to 0.5, so under the default min-clade-freq threshold a split whose
frequency is exactly one half meets a threshold test of the form frequency
at least min-freq instead of being excluded. -/
theorem greater_than_50_percent_equals_half :
    GREATER_THAN_50_PERCENT = 1 / 2
    ∧ ¬ (1 / 2 < GREATER_THAN_50_PERCENT)
    ∧ (1 / 2 : ℚ) ≥ GREATER_THAN_50_PERCENT
    ∧ resolve_min_clade_freq GREATER_THAN_50_PERCENT = 1 / 2 := by
  have h : GREATER_THAN_50_PERCENT = 1 / 2 := by
    rw [GREATER_THAN_50_PERCENT, decimal_half_next_plus]
    exact round_to_double_half_plus (1 / 10 ^ 28) (by positivity) (by norm_num)
  refine ⟨h, ?_, ?_, ?_⟩
  · rw [h]
    exact lt_irrefl _
  · rw [h]
  · rw [h, resolve_min_clade_freq]
    norm_num

/-- C4 counterexample: the repository's own test table for mask 0xF expects
is_trivial_split(0, 0xF) to be true, while the formula claimed (popcount of
the split equal to one, or equal to the popcount of the mask minus one) is
false at split 0, so the claimed equivalence fails on the tested code. -/
theorem is_trivial_claimed_formula_counterexample :
    is_trivial_expected_0xF.getD 0 false = true ∧ claimed_is_trivial 0 0xF = false := by
  decide

/-- C4 amended: on the full domain exercised by IsTrivialTest (splits 0 to
31 against masks 0xF, 0x1F and 0x17), the expected values coincide with the
masked formula: a split is trivial exactly when its restriction to the mask
has popcount at most one or at least the mask popcount minus one; in
particular the claim's two concrete examples hold. -/
theorem is_trivial_matches_masked_formula :
    is_trivial_expected_0xF = (List.range 32).map (fun i => masked_is_trivial i 0xF)
    ∧ is_trivial_expected_0x1F = (List.range 32).map (fun i => masked_is_trivial i 0x1F)
    ∧ is_trivial_expected_0x17 = (List.range 32).map (fun i => masked_is_trivial i 0x17)
    ∧ masked_is_trivial 1 0xF = true ∧ masked_is_trivial 3 0xF = false := by
  decide

/-- C5: with burn-in 1 and two sources of two trees each, the serial loop
skips only the first tree of the concatenated stream (it counts the leading
tree of the second file and three trees in total), while the worker loop
skips the first tree of every file and counts two; the two modes do not
implement the same per-file burn-in documented by the --burnin option. -/
theorem burnin_serial_global_vs_worker_per_file :
    serial_counted_trees [[demo_tree_a, demo_tree_b], [demo_tree_c, demo_tree_d]] 1
      = [demo_tree_b, demo_tree_c, demo_tree_d]
    ∧ worker_counted_trees [[demo_tree_a, demo_tree_b], [demo_tree_c, demo_tree_d]] 1
      = [demo_tree_b, demo_tree_d]
    ∧ (process_sources_serial [[demo_tree_a, demo_tree_b], [demo_tree_c, demo_tree_d]]
          1).toOption.map (fun st => st.1.total_trees_counted) = some 3
    ∧ (worker_run none 1 false [[demo_tree_a, demo_tree_b], [demo_tree_c, demo_tree_d]]).map
        (fun st => st.1.total_trees_counted) = some 2 := by
  decide

/-- C6: a min-clade-freq value above one is clamped to exactly one rather
than rejected, and any value at most one is passed through unchanged to
tree_from_splits. -/
theorem min_clade_freq_clamped (q : ℚ) :
    (1 < q → resolve_min_clade_freq q = 1) ∧ (q ≤ 1 → resolve_min_clade_freq q = q) := by
  constructor
  · intro h
    rw [resolve_min_clade_freq, if_pos h]
  · intro h
    rw [resolve_min_clade_freq, if_neg (not_lt.2 h)]

/-- Witness for the clamp at the values three halves and one half. -/
theorem min_clade_freq_clamped_witness :
    ((1 : ℚ) < 3 / 2 ∧ resolve_min_clade_freq (3 / 2) = 1)
    ∧ ((1 / 2 : ℚ) ≤ 1 ∧ resolve_min_clade_freq (1 / 2) = 1 / 2) :=
  ⟨⟨by norm_num, (min_clade_freq_clamped (3 / 2)).1 (by norm_num)⟩,
    ⟨by norm_num, (min_clade_freq_clamped (1 / 2)).2 (by norm_num)⟩⟩

/-- C7: a worker whose kill_received flag goes up before it has consumed all
trees of its work publishes nothing on either result queue, and a worker
that never receives the signal publishes, on normal completion of the whole
work loop, exactly the split distribution and, when requested, the topology
hash map of the trees clearing its per-file burn-in offset. -/
theorem killed_worker_publishes_nothing (sources : List (List PhyloTree))
    (tree_offset : Nat) (calc_tree_probs : Bool) (k : Nat)
    (hk : k ≤ total_trees_in_sources sources) :
    worker_run (some k) tree_offset calc_tree_probs sources = none
    ∧ worker_run none tree_offset calc_tree_probs sources
        = some (count_splits_on_trees emptySplitDistribution
              (worker_counted_trees sources tree_offset),
            if calc_tree_probs then
              topology_count_trees (fun _ => 0) (worker_counted_trees sources tree_offset)
            else (fun _ => 0)) := by
  constructor
  · simp only [worker_run]
    rcases worker_work_loop_progress k tree_offset calc_tree_probs sources 0
        (emptySplitDistribution, fun _ => 0) with h | h
    · simp [h]
    · have h2 : killed_at (some k)
          (worker_work_loop (some k) tree_offset calc_tree_probs sources 0
            (emptySplitDistribution, fun _ => 0)).1 = true := by
        rw [h]
        simp only [killed_at, decide_eq_true_eq]
        omega
      simp [h2]
  · simp only [worker_run]
    rw [worker_work_loop_none tree_offset calc_tree_probs sources 0
      (emptySplitDistribution, fun _ => 0)]
    simp [killed_at]

/-- Witness for worker cancellation versus normal completion on one source
of two trees, with the kill signal arriving after the first tree. -/
theorem killed_worker_publishes_nothing_witness :
    1 ≤ total_trees_in_sources [[demo_tree_a, demo_tree_b]]
    ∧ (worker_run (some 1) 0 false [[demo_tree_a, demo_tree_b]] = none
      ∧ worker_run none 0 false [[demo_tree_a, demo_tree_b]]
          = some (count_splits_on_trees emptySplitDistribution
                (worker_counted_trees [[demo_tree_a, demo_tree_b]] 0),
              if false then
                topology_count_trees (fun _ => 0)
                  (worker_counted_trees [[demo_tree_a, demo_tree_b]] 0)
              else (fun _ => 0))) :=
  ⟨by decide,
    killed_worker_publishes_nothing [[demo_tree_a, demo_tree_b]] 0 false 1 (by decide)⟩

/-- C8: in parallel mode the taxon namespace is discovered exactly once,
from the first support file, before any worker is constructed; every worker
is built from that same broadcast ordered label list, so any two workers
assign identical bit indices to every taxon label and their distributions
are mergeable. -/
theorem workers_share_taxon_bit_indices (num_processes : Nat)
    (support_sources : List (List (List String))) (w1 w2 : WorkerSetup)
    (h1 : w1 ∈ process_sources_parallel_workers num_processes support_sources)
    (h2 : w2 ∈ process_sources_parallel_workers num_processes support_sources) :
    w1.taxon_labels = discover_taxa (support_sources.headD [])
    ∧ (∀ label, taxon_bit_index w1.taxon_labels label
        = taxon_bit_index w2.taxon_labels label) := by
  simp only [process_sources_parallel_workers, List.mem_map] at h1 h2
  obtain ⟨i1, _, he1⟩ := h1
  obtain ⟨i2, _, he2⟩ := h2
  constructor
  · rw [← he1]
  · intro label
    rw [← he1, ← he2]

/-- Witness for shared bit indices between the two workers of a concrete
two-process run over one source file with two taxa. -/
theorem workers_share_taxon_bit_indices_witness :
    (⟨["a", "b"], 0⟩ : WorkerSetup) ∈ process_sources_parallel_workers 2 [[["a", "b"]]]
    ∧ (⟨["a", "b"], 1⟩ : WorkerSetup) ∈ process_sources_parallel_workers 2 [[["a", "b"]]]
    ∧ ((⟨["a", "b"], 0⟩ : WorkerSetup).taxon_labels = discover_taxa ([[["a", "b"]]].headD [])
      ∧ ∀ label, taxon_bit_index (⟨["a", "b"], 0⟩ : WorkerSetup).taxon_labels label
          = taxon_bit_index (⟨["a", "b"], 1⟩ : WorkerSetup).taxon_labels label) :=
  ⟨by decide, by decide,
    workers_share_taxon_bit_indices 2 [[["a", "b"]]] ⟨["a", "b"], 0⟩ ⟨["a", "b"], 1⟩
      (by decide) (by decide)⟩

/-- C10: the rooting guard before support mapping tests the bound method
object rather than its result, so the branch for unrooted support trees is
dead: a rooted target tree over unrooted support trees proceeds without any
exit, while an unrooted target tree always triggers exit code 1, even when
it agrees with unrooted support trees. -/
theorem target_rooting_check_divergence :
    target_tree_rooting_check false true = none
    ∧ target_tree_rooting_check true false = some 1
    ∧ target_tree_rooting_check false false = some 1 := by
  decide
